import Mathlib

/-!
Verification of the reservoir-computing implementation in ResCom.py.

The numerical code is shallowly embedded over exact rational arithmetic.
External collaborators that the specification itself declares out of scope
(the random source, the iterative eigensolver, the spline library, the ODE
integrator and the vector-norm routine) are modelled as explicit parameters:
a random draw becomes a given sample outcome, the eigensolver becomes a
function argument max_eval, odeint output becomes a given trajectory, and
so on.  Everything the repository computes from those values is translated
operation by operation from the source.
-/

namespace ResCom

open scoped Matrix

/-- Vectors of length n; numpy 1-d float arrays are modelled with exact
rational entries. -/
abbrev Vec (n : ℕ) : Type := Fin n → ℚ

/-- n by m matrices; scipy sparse and numpy dense matrices are modelled at
value level. -/
abbrev Mat (n m : ℕ) : Type := Matrix (Fin n) (Fin m) ℚ

/-- mu is an eigenvalue of A with eigenvector v. -/
def EigenPair {n : ℕ} (A : Mat n n) (mu : ℚ) (v : Vec n) : Prop :=
  v ≠ 0 ∧ A.mulVec v = mu • v

/-- s is the spectral radius of A: every eigenvalue has magnitude at most s
and some eigenvalue attains magnitude s. -/
def IsSpectralRadius {n : ℕ} (A : Mat n n) (s : ℚ) : Prop :=
  (∀ mu v, EigenPair A mu v → |mu| ≤ s) ∧ ∃ mu v, EigenPair A mu v ∧ |mu| = s

/-- ESN.adj_matrix (ResCom.py lines 99-109): the random sparse matrix M
(here the abstract random-source outcome Mraw) is divided by the magnitude
max_eval of its dominant eigenvalue as returned by the external eigensolver:
the method returns (1/max_eval)*M, stored as self.M_orig. -/
def adj_matrix {n : ℕ} (Mraw : Mat n n) (max_eval : ℚ) : Mat n n :=
  (1 / max_eval) • Mraw

/-- ESN.rho setter (ResCom.py lines 65-72): self.M = rho * self.M_orig. -/
def set_rho {n : ℕ} (rho : ℚ) (M_orig : Mat n n) : Mat n n :=
  rho • M_orig

lemma eigenPair_smul {n : ℕ} {A : Mat n n} {mu : ℚ} {v : Vec n} (c : ℚ)
    (h : EigenPair A mu v) : EigenPair (c • A) (c * mu) v := by
  refine ⟨h.1, ?_⟩
  rw [Matrix.smul_mulVec_assoc, h.2, smul_smul]

lemma eigenPair_of_smul {n : ℕ} {A : Mat n n} {nu c : ℚ} {v : Vec n} (hc : c ≠ 0)
    (h : EigenPair (c • A) nu v) : EigenPair A (c⁻¹ * nu) v := by
  refine ⟨h.1, ?_⟩
  have h2 : c⁻¹ • ((c • A).mulVec v) = c⁻¹ • (nu • v) := by rw [h.2]
  rw [Matrix.smul_mulVec_assoc, smul_smul, inv_mul_cancel₀ hc, one_smul,
    smul_smul] at h2
  exact h2

/-- Claim C1 (amended): with the eigensolver outcome max_eval equal to the
(nonzero) dominant eigenvalue magnitude of the raw adjacency matrix, the
matrix stored by any set_rho(rho) has spectral radius |rho|; in particular
it equals rho for every rho that is at least 0. -/
theorem C1_set_rho_spectral_radius_abs {n : ℕ} (Mraw : Mat n n) (mu_max rho : ℚ)
    (hsr : IsSpectralRadius Mraw mu_max) (hne : mu_max ≠ 0) :
    IsSpectralRadius (set_rho rho (adj_matrix Mraw mu_max)) |rho| := by
  obtain ⟨hbound, mu0, v0, hp0, habs0⟩ := hsr
  have hpos : 0 < mu_max := lt_of_le_of_ne (habs0 ▸ abs_nonneg mu0) (Ne.symm hne)
  have hM : set_rho rho (adj_matrix Mraw mu_max) = (rho * (1 / mu_max)) • Mraw := by
    rw [set_rho, adj_matrix, smul_smul]
  rw [hM]
  by_cases hrho : rho = 0
  · subst hrho
    rw [zero_mul, zero_smul]
    constructor
    · rintro nu v ⟨hv, he⟩
      rw [Matrix.zero_mulVec] at he
      rcases smul_eq_zero.mp he.symm with h | h
      · simp [h]
      · exact absurd h hv
    · refine ⟨0, v0, ⟨hp0.1, ?_⟩, by simp⟩
      rw [Matrix.zero_mulVec, zero_smul]
  · have hc : rho * (1 / mu_max) ≠ 0 := mul_ne_zero hrho (one_div_ne_zero hne)
    have habs_c : |rho * (1 / mu_max)| = |rho| / mu_max := by
      rw [abs_mul, abs_of_pos (by positivity : (0 : ℚ) < 1 / mu_max), mul_one_div]
    constructor
    · rintro nu v hp
      have hq := eigenPair_of_smul hc hp
      have h1 : |(rho * (1 / mu_max))⁻¹ * nu| ≤ mu_max := hbound _ _ hq
      have hcabs : (0 : ℚ) < |rho * (1 / mu_max)| := abs_pos.mpr hc
      have h2 : |rho * (1 / mu_max)| * |(rho * (1 / mu_max))⁻¹ * nu| = |nu| := by
        rw [← abs_mul, ← mul_assoc, mul_inv_cancel₀ hc, one_mul]
      rw [← h2, habs_c]
      calc |rho| / mu_max * |(rho * (1 / mu_max))⁻¹ * nu|
          ≤ |rho| / mu_max * mu_max :=
            mul_le_mul_of_nonneg_left h1 (by positivity)
        _ = |rho| := div_mul_cancel₀ _ (ne_of_gt hpos)
    · refine ⟨rho * (1 / mu_max) * mu0, v0, eigenPair_smul _ hp0, ?_⟩
      rw [abs_mul, habs_c, habs0]
      exact div_mul_cancel₀ _ (ne_of_gt hpos)

lemma isSpectralRadius_two_single : IsSpectralRadius (!![(2 : ℚ)]) 2 := by
  constructor
  · rintro mu v ⟨hv, he⟩
    have hv0 : v 0 ≠ 0 := by
      intro h0
      apply hv
      funext i
      have hi : i = 0 := Subsingleton.elim i 0
      rw [hi, h0]
      rfl
    have h1 : (2 : ℚ) * v 0 = mu * v 0 := by
      have h2 := congrFun he 0
      simpa [Matrix.mulVec, Matrix.dotProduct] using h2
    have h3 : (2 : ℚ) = mu := mul_right_cancel₀ hv0 h1
    rw [← h3]
    norm_num
  · refine ⟨2, ![1], ⟨?_, ?_⟩, by norm_num⟩
    · intro h
      have := congrFun h 0
      norm_num at this
    · funext i
      have hi : i = 0 := Subsingleton.elim i 0
      rw [hi]
      norm_num [Matrix.mulVec, Matrix.dotProduct]

/-- Claim C1 counterexample: the raw matrix with single entry 2 has dominant
eigenvalue magnitude 2 (a legitimate nonzero-magnitude configuration), yet
after the assignment rho := -1 the stored matrix does not have spectral
radius equal to rho, because a spectral radius is a magnitude and cannot be
negative. -/
theorem C1_counterexample :
    IsSpectralRadius (!![(2 : ℚ)]) 2 ∧
      ¬ IsSpectralRadius (set_rho (-1) (adj_matrix !![(2 : ℚ)] 2)) (-1) := by
  refine ⟨isSpectralRadius_two_single, ?_⟩
  rintro ⟨-, mu, v, -, habs⟩
  have h0 : (0 : ℚ) ≤ |mu| := abs_nonneg mu
  rw [habs] at h0
  linarith

/-- Claim C1 witness: instantiating the amended theorem at the 1 by 1 raw
matrix with entry 2, dominant magnitude 2 and rho = 3. -/
theorem C1_witness :
    IsSpectralRadius (set_rho 3 (adj_matrix !![(2 : ℚ)] 2)) |(3 : ℚ)| :=
  C1_set_rho_spectral_radius_abs !![(2 : ℚ)] 2 3 isSpectralRadius_two_single
    (by norm_num)

/-- ESN.q (ResCom.py lines 128-133): the quadratic feature map x with
x[0:N] = r and x[N:2N] = r**2; the two halves of the 2N-vector are indexed
by the left and right summands. -/
def q {n : ℕ} (r : Vec n) : Fin n ⊕ Fin n → ℚ :=
  Sum.elim r (fun i => r i ^ 2)

/-- One numpy column assignment X[:, c] = col on a matrix with k columns. -/
def updateCol {m : Type} {k : ℕ} (X : Matrix m (Fin k) ℚ) (c : ℕ)
    (col : m → ℚ) : Matrix m (Fin k) ℚ :=
  fun a b => if (b : ℕ) = c then col a else X a b

/-- The assembly loop of ESN.train (ResCom.py lines 150-151) folded over its
index list: for i in L do X[:, i+1-t_listen] = q(traj[i+1]). -/
def designFold {n : ℕ} (traj : ℕ → Vec n) (t_listen : ℕ) {k : ℕ}
    (X0 : Matrix (Fin n ⊕ Fin n) (Fin k) ℚ) (L : List ℕ) :
    Matrix (Fin n ⊕ Fin n) (Fin k) ℚ :=
  L.foldl (fun X i => updateCol X (i + 1 - t_listen) (q (traj (i + 1)))) X0

/-- The design matrix X of ESN.train (ResCom.py lines 148-151):
X = np.zeros((2N, t.size - t_listen)) followed by the assembly loop over
i in range(t_listen, t.size - 1); T is the time-grid length t.size and
traj is the odeint trajectory. -/
def X_design (n T t_listen : ℕ) (traj : ℕ → Vec n) :
    Matrix (Fin n ⊕ Fin n) (Fin (T - t_listen)) ℚ :=
  designFold traj t_listen 0 (List.range' t_listen (T - 1 - t_listen))

/-- The target matrix Y of ESN.train (ResCom.py line 149):
Y = np.transpose(data[t_listen:]), so Y[j, c] = data[t_listen + c][j]. -/
def Y_target (d T t_listen : ℕ) (data : ℕ → Fin d → ℚ) :
    Matrix (Fin d) (Fin (T - t_listen)) ℚ :=
  fun j c => data (t_listen + (c : ℕ)) j

lemma designFold_append {n : ℕ} (traj : ℕ → Vec n) (t_listen : ℕ) {k : ℕ}
    (X0 : Matrix (Fin n ⊕ Fin n) (Fin k) ℚ) (L1 L2 : List ℕ) :
    designFold traj t_listen X0 (L1 ++ L2) =
      designFold traj t_listen (designFold traj t_listen X0 L1) L2 :=
  List.foldl_append _ _ _ _

lemma designFold_untouched {n : ℕ} (traj : ℕ → Vec n) (t_listen : ℕ) {k : ℕ}
    (X0 : Matrix (Fin n ⊕ Fin n) (Fin k) ℚ) (L : List ℕ) (a : Fin n ⊕ Fin n)
    (b : Fin k) (h : ∀ i ∈ L, i + 1 - t_listen ≠ (b : ℕ)) :
    designFold traj t_listen X0 L a b = X0 a b := by
  induction L generalizing X0 with
  | nil => rfl
  | cons i L ih =>
      have h1 : i + 1 - t_listen ≠ (b : ℕ) := h i (List.mem_cons_self i L)
      have h2 : ∀ j ∈ L, j + 1 - t_listen ≠ (b : ℕ) :=
        fun j hj => h j (List.mem_cons_of_mem i hj)
      show designFold traj t_listen
          (updateCol X0 (i + 1 - t_listen) (q (traj (i + 1)))) L a b = X0 a b
      rw [ih _ h2]
      simp only [updateCol]
      exact if_neg (fun hb => h1 hb.symm)

lemma designFold_col {n : ℕ} (traj : ℕ → Vec n) (t_listen : ℕ) {k : ℕ}
    (X0 : Matrix (Fin n ⊕ Fin n) (Fin k) ℚ) (len : ℕ) (a : Fin n ⊕ Fin n)
    (b : Fin k) (hb1 : 1 ≤ (b : ℕ)) (hb2 : (b : ℕ) ≤ len) :
    designFold traj t_listen X0 (List.range' t_listen len) a b =
      q (traj (t_listen + (b : ℕ))) a := by
  induction len generalizing X0 with
  | zero => omega
  | succ m ih =>
      rw [List.range'_1_concat, designFold_append]
      show updateCol (designFold traj t_listen X0 (List.range' t_listen m))
          (t_listen + m + 1 - t_listen) (q (traj (t_listen + m + 1))) a b =
          q (traj (t_listen + (b : ℕ))) a
      have harith : t_listen + m + 1 - t_listen = m + 1 := by omega
      simp only [updateCol, harith]
      by_cases hbm : (b : ℕ) = m + 1
      · rw [if_pos hbm, hbm]
        rfl
      · rw [if_neg hbm]
        exact ih X0 (by omega)

lemma X_design_col {n : ℕ} (T t_listen : ℕ) (traj : ℕ → Vec n)
    (a : Fin n ⊕ Fin n) (b : Fin (T - t_listen)) (hb1 : 1 ≤ (b : ℕ))
    (hb2 : (b : ℕ) ≤ T - 1 - t_listen) :
    X_design n T t_listen traj a b = q (traj (t_listen + (b : ℕ))) a :=
  designFold_col traj t_listen 0 (T - 1 - t_listen) a b hb1 hb2

lemma X_design_col_zero {n : ℕ} (T t_listen : ℕ) (traj : ℕ → Vec n)
    (a : Fin n ⊕ Fin n) (b : Fin (T - t_listen)) (hb : (b : ℕ) = 0) :
    X_design n T t_listen traj a b = 0 := by
  rw [X_design, designFold_untouched]
  · rfl
  · intro i hi
    have := List.mem_range'_1.mp hi
    omega

/-- Claim C2 (amended): in train(data, t, t_listen), for every i from
t_listen to T-2, the design column i+1-t_listen holds the feature map of the
trajectory state at index i+1 and is paired with the output-data row at
index i+1 (a same-time target), not with the row at index i. -/
theorem C2_design_alignment_same_index {n d T t_listen i : ℕ}
    (traj : ℕ → Vec n) (data : ℕ → Fin d → ℚ) (hi1 : t_listen ≤ i)
    (hi2 : i + 1 < T) (b : Fin (T - t_listen)) (hb : (b : ℕ) = i + 1 - t_listen) :
    (∀ a, X_design n T t_listen traj a b = q (traj (i + 1)) a) ∧
      ∀ j, Y_target d T t_listen data j b = data (i + 1) j := by
  have hidx : t_listen + (b : ℕ) = i + 1 := by omega
  constructor
  · intro a
    rw [X_design_col T t_listen traj a b (by omega) (by omega), hidx]
  · intro j
    show data (t_listen + (b : ℕ)) j = data (i + 1) j
    rw [hidx]

/-- Concrete trajectory used in the C2 and C10 instances. -/
def exTraj : ℕ → Vec 1 := fun t _ => (t : ℚ)

/-- Concrete training data used in the C2 and C10 instances. -/
def exData : ℕ → Fin 1 → ℚ := fun t _ => (t : ℚ)

/-- Claim C2 counterexample: at T = 3, t_listen = 0, take i = 0.  The design
column 1 = i+1-t_listen holds the feature of trajectory state i+1 = 1, but
its paired target column is data row 1, and data row 1 differs from data
row i = 0, so the pairing is not the claimed one-step-ahead target. -/
theorem C2_counterexample :
    X_design 1 3 0 exTraj (Sum.inl 0) ⟨1, by omega⟩ = q (exTraj 1) (Sum.inl 0) ∧
      Y_target 1 3 0 exData 0 ⟨1, by omega⟩ = exData 1 0 ∧
      exData 1 0 ≠ exData 0 0 := by
  refine ⟨rfl, rfl, ?_⟩
  show (1 : ℚ) ≠ (0 : ℚ)
  norm_num

/-- Claim C2 witness: the amended alignment instantiated at n = d = 1, T = 3,
t_listen = 0, i = 0, on the concrete trajectory and data. -/
theorem C2_witness :
    X_design 1 3 0 exTraj (Sum.inl 0) ⟨1, by omega⟩ = q (exTraj 1) (Sum.inl 0) ∧
      Y_target 1 3 0 exData 0 ⟨1, by omega⟩ = exData 1 0 :=
  ⟨(C2_design_alignment_same_index exTraj exData (by omega) (by omega)
      ⟨1, by omega⟩ rfl).1 (Sum.inl 0),
    (C2_design_alignment_same_index exTraj exData (by omega) (by omega)
      ⟨1, by omega⟩ rfl).2 0⟩

/-- Claim C10 (confirmed): for 0 ≤ t_listen < T-1, the assembly loop writes
only columns 1 through T-1-t_listen, so column 0 of X remains all-zero while
its paired target column is the data row at index t_listen. -/
theorem C10_column_zero {n d T t_listen : ℕ} (traj : ℕ → Vec n)
    (data : ℕ → Fin d → ℚ) (_hT : t_listen + 1 < T) (b : Fin (T - t_listen))
    (hb : (b : ℕ) = 0) :
    (∀ a, X_design n T t_listen traj a b = 0) ∧
      ∀ j, Y_target d T t_listen data j b = data t_listen j := by
  constructor
  · intro a
    exact X_design_col_zero T t_listen traj a b hb
  · intro j
    show data (t_listen + (b : ℕ)) j = data t_listen j
    rw [hb]
    rfl

/-- Claim C10 witness: the zero column and its target row at n = d = 1,
T = 3, t_listen = 0 on the concrete trajectory and data. -/
theorem C10_witness :
    X_design 1 3 0 exTraj (Sum.inl 0) ⟨0, by omega⟩ = 0 ∧
      Y_target 1 3 0 exData 0 ⟨0, by omega⟩ = exData 0 0 :=
  ⟨(C10_column_zero exTraj exData (by omega) ⟨0, by omega⟩ rfl).1 (Sum.inl 0),
    (C10_column_zero exTraj exData (by omega) ⟨0, by omega⟩ rfl).2 0⟩

/-- The readout solve of ESN.train (ResCom.py lines 153-157):
M_1 = Y @ Xᵀ, M_2 = np.linalg.inv(X @ Xᵀ + beta * I), W_out = M_1 @ M_2.
np.linalg.inv raises a singular-matrix error on a non-invertible argument,
modelled by the none branch; over a field the inverse of an invertible
matrix is det⁻¹ times the adjugate. -/
def train_W_out {m k d : ℕ} (X : Matrix (Fin m) (Fin k) ℚ)
    (Y : Matrix (Fin d) (Fin k) ℚ) (beta : ℚ) :
    Option (Matrix (Fin d) (Fin m) ℚ) :=
  let A := X * Xᵀ + beta • (1 : Matrix (Fin m) (Fin m) ℚ)
  if A.det = 0 then none
  else some (Y * Xᵀ * (A.det⁻¹ • A.adjugate))

/-- Claim C3 (confirmed): when the ridge matrix X Xᵀ + beta I is invertible,
train stores W_out = Y Xᵀ (X Xᵀ + beta I)⁻¹ — equivalently the stored W
satisfies W (X Xᵀ + beta I) = Y Xᵀ — and when it is singular, train fails
(returns none) instead of producing weights. -/
theorem C3_train_ridge_solution {m k d : ℕ} (X : Matrix (Fin m) (Fin k) ℚ)
    (Y : Matrix (Fin d) (Fin k) ℚ) (beta : ℚ) :
    ((X * Xᵀ + beta • (1 : Matrix (Fin m) (Fin m) ℚ)).det ≠ 0 →
        train_W_out X Y beta =
          some (Y * Xᵀ * (X * Xᵀ + beta • (1 : Matrix (Fin m) (Fin m) ℚ))⁻¹) ∧
        ∀ W, train_W_out X Y beta = some W →
          W * (X * Xᵀ + beta • (1 : Matrix (Fin m) (Fin m) ℚ)) = Y * Xᵀ) ∧
      ((X * Xᵀ + beta • (1 : Matrix (Fin m) (Fin m) ℚ)).det = 0 →
        train_W_out X Y beta = none) := by
  set A := X * Xᵀ + beta • (1 : Matrix (Fin m) (Fin m) ℚ) with hA
  constructor
  · intro hdet
    have hinv : A⁻¹ = A.det⁻¹ • A.adjugate := by
      rw [Matrix.inv_def, Ring.inverse_eq_inv]
    have hsolve : train_W_out X Y beta = some (Y * Xᵀ * (A.det⁻¹ • A.adjugate)) := by
      rw [train_W_out]
      exact if_neg hdet
    constructor
    · rw [hsolve, hinv]
    · intro W hW
      rw [hsolve, Option.some_inj] at hW
      rw [← hW, Matrix.mul_assoc, Matrix.smul_mul, Matrix.adjugate_mul,
        smul_smul, inv_mul_cancel₀ hdet, one_smul, Matrix.mul_one]
  · intro hdet
    rw [train_W_out]
    exact if_pos hdet

/-- Claim C3 witness: at X = [[1]], Y = [[2]], beta = 1 the ridge matrix is
[[2]], which is invertible, and train returns the claimed product. -/
theorem C3_witness :
    train_W_out !![(1 : ℚ)] !![(2 : ℚ)] 1 =
      some (!![(2 : ℚ)] * !![(1 : ℚ)]ᵀ *
        (!![(1 : ℚ)] * !![(1 : ℚ)]ᵀ + (1 : ℚ) • (1 : Matrix (Fin 1) (Fin 1) ℚ))⁻¹) :=
  ((C3_train_ridge_solution !![(1 : ℚ)] !![(2 : ℚ)] 1).1 (by
    rw [Matrix.det_fin_one]
    norm_num [Matrix.mul_apply, Matrix.one_apply, Fin.sum_univ_one,
      Matrix.transpose_apply, Matrix.vecHead])).1

/-- ESN.input_matrix (ResCom.py lines 112-125), shape part: the abstract
random draws are cols i = stats.randint(0, d).rvs() for row i (sampler
contract: cols i < d) and values i = stats.uniform(loc=-1, scale=2).rvs().
sp.coo_matrix((values, (rows, cols))) with rows = arange(0, N) and no shape
argument infers its shape from the index arrays: N rows and max(cols) + 1
columns. -/
def input_matrix_num_cols (N : ℕ) (cols : Fin N → ℕ) : ℕ :=
  (Finset.univ.sup cols) + 1

/-- ESN.input_matrix, entry part: row i holds values i in column cols i and
zeros elsewhere (the row indices are distinct, so no duplicate coordinates
are summed by the coo construction). -/
def input_matrix {N : ℕ} (cols : Fin N → ℕ) (values : Fin N → ℚ) :
    Matrix (Fin N) (Fin (input_matrix_num_cols N cols)) ℚ :=
  fun i j => if (j : ℕ) = cols i then values i else 0

/-- Claim C4 (code bug): with N = 1, d = 2 and a sampler outcome drawing
column 0 for the single row, the produced matrix has 1 column, not d = 2,
because sp.coo_matrix is called without a shape argument and infers the
shape from the index arrays; this contradicts the method's own docstring
(a random N x d sparse csr matrix).  The structural part of the claim does
hold: each row carries its sampled value in its sampled column and zeros
elsewhere. -/
theorem C4_input_matrix_shape_bug :
    input_matrix_num_cols 1 (fun _ => 0) = 1 ∧ (1 : ℕ) ≠ 2 ∧
      ∀ j, input_matrix (N := 1) (fun _ => 0) (fun _ => 1/2) 0 j =
        if (j : ℕ) = 0 then 1/2 else 0 :=
  ⟨by decide, by decide, fun _ => rfl⟩

/-- The interpolant update of ESN.train (ResCom.py lines 144-145): the
spline u is built from the supplied (data, t) only when no interpolant
exists yet: if type(self.u) == type(None): self.u = self.spline(data, t).
The external spline library is the abstract parameter splineFn. -/
def train_update_u {Data Time I : Type} (splineFn : Data → Time → I)
    (u : Option I) (data : Data) (t : Time) : Option I :=
  match u with
  | none => some (splineFn data t)
  | some u0 => some u0

/-- The interpolant update of ESN.predict (ResCom.py lines 163-167): when
fresh (data, t) is supplied the spline is rebuilt from it unconditionally;
when no data is supplied the stored interpolant is kept. -/
def predict_update_u {Data Time I : Type} (splineFn : Data → Time → I)
    (u : Option I) (fresh : Option (Data × Time)) : Option I :=
  match fresh with
  | none => u
  | some (data, t) => some (splineFn data t)

/-- Claim C9 (amended): predict derives the interpolant anew whenever fresh
data is supplied and reuses the stored one otherwise; train, however, builds
the interpolant from the supplied (data, t) only when none exists yet — when
an interpolant is already stored, train reuses it and ignores the freshly
supplied data. -/
theorem C9_interpolant_reuse {Data Time I : Type} (splineFn : Data → Time → I)
    (u0 : I) (data : Data) (t : Time) :
    train_update_u splineFn none data t = some (splineFn data t) ∧
      train_update_u splineFn (some u0) data t = some u0 ∧
      (∀ u, predict_update_u splineFn u (some (data, t)) = some (splineFn data t)) ∧
      (∀ u : Option I, predict_update_u splineFn u none = u) :=
  ⟨rfl, rfl, fun _ => rfl, fun _ => rfl⟩

/-- The concrete spline collaborator used in the C9 instance. -/
def exSpline : ℚ → ℚ → ℚ := fun dat t => dat + t

/-- Claim C9 counterexample: a train call that supplies fresh data while an
interpolant is already stored keeps the stored interpolant: with stored
u = 0 and fresh (data, t) whose spline is 2, train keeps 0 instead of
building the interpolant from the supplied pair. -/
theorem C9_counterexample :
    train_update_u exSpline (some 0) 1 1 = some 0 ∧ exSpline 1 1 = 2 ∧
      some (0 : ℚ) ≠ some (2 : ℚ) := by
  refine ⟨rfl, ?_, ?_⟩
  · show (1 : ℚ) + 1 = 2
    norm_num
  · intro h
    rw [Option.some_inj] at h
    norm_num at h

/-- The outer-product buffer of AHESN.hebb_learn (ResCom.py lines 203-204):
X[i, j] = x[t+1, i] * x[t, j]; the same product appears in vector form as
np.asarray([x[t+1]]).T @ np.asarray([x[t]]) in hebb_learn_vector and
norm_hebb_learn (lines 220 and 244). -/
def outer {n : ℕ} (u v : Vec n) : Mat n n :=
  fun i j => u i * v j

/-- One decay update M - eta * outer(x[t+1], x[t]) as in ResCom.py
line 205 (and lines 220, 244 in vector form). -/
def hebbStep {n : ℕ} (eta : ℚ) (x : ℕ → Vec n) (M : Mat n n) (t : ℕ) :
    Mat n n :=
  M - eta • outer (x (t + 1)) (x t)

/-- One epoch of AHESN.hebb_learn (ResCom.py lines 202-205): the decay
update applied for t in range(t_listen, T - 1), with T = data.shape[0]. -/
def hebbEpoch {n : ℕ} (eta : ℚ) (x : ℕ → Vec n) (t_listen T : ℕ)
    (M : Mat n n) : Mat n n :=
  (List.range' t_listen (T - 1 - t_listen)).foldl (hebbStep eta x) M

/-- AHESN.hebb_learn (ResCom.py lines 193-208): starting from
M = self.M_orig.todense().copy(), the epoch loop runs self.epochs times and
the result is stored as self.M = self.rho * sp.csr_matrix(M); x is the
odeint trajectory.  The rescale branch (lines 194-195) overwrites self.M
with rho * M_orig first, but the final store recomputes self.M from M_orig
regardless, so the stored result is the same for either value of the
rescale flag. -/
def hebb_learn {n : ℕ} (M_orig : Mat n n) (x : ℕ → Vec n) (eta rho : ℚ)
    (epochs t_listen T : ℕ) : Mat n n :=
  rho • (hebbEpoch eta x t_listen T)^[epochs] M_orig

/-- One inner step of AHESN.hebb_learn_vector (ResCom.py lines 219-223):
the decay update followed, when scale_M == 2, by renormalization to
spectral radius rho through the external eigensolver max_eval. -/
def hlvStep {n : ℕ} (eta rho : ℚ) (x : ℕ → Vec n) (max_eval : Mat n n → ℚ)
    (scale_M : ℕ) (M : Mat n n) (t : ℕ) : Mat n n :=
  let M1 := M - eta • outer (x (t + 1)) (x t)
  if scale_M = 2 then (rho / max_eval M1) • M1 else M1

/-- One epoch of AHESN.hebb_learn_vector: the inner step for t in
range(t_listen, T - 1) with T = data.shape[0]. -/
def hlvEpoch {n : ℕ} (eta rho : ℚ) (x : ℕ → Vec n) (max_eval : Mat n n → ℚ)
    (scale_M t_listen T : ℕ) (M : Mat n n) : Mat n n :=
  (List.range' t_listen (T - 1 - t_listen)).foldl
    (hlvStep eta rho x max_eval scale_M) M

/-- The body of AHESN.hebb_learn_vector from the working copy on
(ResCom.py lines 214-232): starting from M = self.M.copy(), the epoch loop
runs self.epochs times; at the end, scale_M == 1 stores
(rho / max_eval(M)) * M, scale_M == 2 stores M as is (the renormalization
already ran inside the loop), and any other scale_M stores M unchanged.
The reset_M branch of lines 212-213, which runs before the copy is taken,
is modelled in hebb_learn_vector_method. -/
def hebb_learn_vector {n : ℕ} (M : Mat n n) (x : ℕ → Vec n) (eta rho : ℚ)
    (epochs t_listen T : ℕ) (max_eval : Mat n n → ℚ) (scale_M : ℕ) :
    Mat n n :=
  let Mf := (hlvEpoch eta rho x max_eval scale_M t_listen T)^[epochs] M
  if scale_M = 1 then (rho / max_eval Mf) • Mf else Mf

/-- AHESN.hebb_learn_vector as the full method on the model state
(ResCom.py lines 211-232): when reset_M is true (the default), lines
212-213 (self.rho = self.rho) fire the rho setter, overwriting self.M with
rho * M_orig before the working copy M = self.M.copy() is taken; the rest
of the method then runs on that working copy. -/
def hebb_learn_vector_method {n : ℕ} (M_state M_orig : Mat n n)
    (reset_M : Bool) (x : ℕ → Vec n) (eta rho : ℚ) (epochs t_listen T : ℕ)
    (max_eval : Mat n n → ℚ) (scale_M : ℕ) : Mat n n :=
  hebb_learn_vector (if reset_M then set_rho rho M_orig else M_state) x eta
    rho epochs t_listen T max_eval scale_M

/-- Follows the spec's words for rescale_mode in the sparse anti-Hebbian
procedure: mode 0 performs no renormalization, mode 1 renormalizes the
matrix to spectral radius rho exactly once at the end of all epochs, and
mode 2 renormalizes the matrix to spectral radius rho after every epoch
(one eigensolver call per epoch). -/
def spec_hebb_learn_vector {n : ℕ} (M : Mat n n) (x : ℕ → Vec n)
    (eta rho : ℚ) (epochs t_listen T : ℕ) (max_eval : Mat n n → ℚ)
    (scale_M : ℕ) : Mat n n :=
  let epoch := fun M0 =>
    let M1 := hebbEpoch eta x t_listen T M0
    if scale_M = 2 then (rho / max_eval M1) • M1 else M1
  let Mf := epoch^[epochs] M
  if scale_M = 1 then (rho / max_eval Mf) • Mf else Mf

/-- Reference form of the mode-2 inner step: decay update followed by
renormalization to spectral radius rho after every single-step update. -/
def hlvStepRenorm {n : ℕ} (eta rho : ℚ) (x : ℕ → Vec n)
    (max_eval : Mat n n → ℚ) (M : Mat n n) (t : ℕ) : Mat n n :=
  (rho / max_eval (M - eta • outer (x (t + 1)) (x t))) •
    (M - eta • outer (x (t + 1)) (x t))

lemma hlvStep_ne_two {n : ℕ} (eta rho : ℚ) (x : ℕ → Vec n)
    (max_eval : Mat n n → ℚ) (scale_M : ℕ) (h : scale_M ≠ 2) :
    hlvStep (n := n) eta rho x max_eval scale_M = hebbStep eta x := by
  funext M t
  simp only [hlvStep, hebbStep]
  exact if_neg h

lemma hlvStep_two {n : ℕ} (eta rho : ℚ) (x : ℕ → Vec n)
    (max_eval : Mat n n → ℚ) :
    hlvStep (n := n) eta rho x max_eval 2 = hlvStepRenorm eta rho x max_eval := by
  funext M t
  simp only [hlvStep, hlvStepRenorm]
  rw [if_true]

/-- Claim C5 (amended): in hebb_learn_vector, mode 0 performs no
renormalization (the result is the plain decay accumulation), mode 1
renormalizes to spectral radius rho exactly once after all epochs, and
mode 2 renormalizes after every single-step update inside each epoch (one
eigensolver call per time step, not one per epoch), with no further
renormalization at the end. -/
theorem C5_rescale_mode_semantics {n : ℕ} (M : Mat n n) (x : ℕ → Vec n)
    (eta rho : ℚ) (epochs t_listen T : ℕ) (max_eval : Mat n n → ℚ) :
    hebb_learn_vector M x eta rho epochs t_listen T max_eval 0 =
        (hebbEpoch eta x t_listen T)^[epochs] M ∧
      hebb_learn_vector M x eta rho epochs t_listen T max_eval 1 =
        (rho / max_eval ((hebbEpoch eta x t_listen T)^[epochs] M)) •
          (hebbEpoch eta x t_listen T)^[epochs] M ∧
      hebb_learn_vector M x eta rho epochs t_listen T max_eval 2 =
        (fun M0 => (List.range' t_listen (T - 1 - t_listen)).foldl
          (hlvStepRenorm eta rho x max_eval) M0)^[epochs] M := by
  have h0 : hlvEpoch eta rho x max_eval 0 t_listen T = hebbEpoch eta x t_listen T := by
    funext M0
    simp only [hlvEpoch, hebbEpoch, hlvStep_ne_two eta rho x max_eval 0 (by omega)]
  have h1 : hlvEpoch eta rho x max_eval 1 t_listen T = hebbEpoch eta x t_listen T := by
    funext M0
    simp only [hlvEpoch, hebbEpoch, hlvStep_ne_two eta rho x max_eval 1 (by omega)]
  have h2 : hlvEpoch eta rho x max_eval 2 t_listen T = fun M0 =>
      (List.range' t_listen (T - 1 - t_listen)).foldl
        (hlvStepRenorm eta rho x max_eval) M0 := by
    funext M0
    simp only [hlvEpoch, hlvStep_two eta rho x max_eval]
  refine ⟨?_, ?_, ?_⟩
  · simp only [hebb_learn_vector, h0]
    exact if_neg (by omega)
  · simp only [hebb_learn_vector, h1]
    rw [if_true]
  · simp only [hebb_learn_vector, h2]
    exact if_neg (by omega)

lemma mat1_ext {A B : Mat 1 1} (h : A 0 0 = B 0 0) : A = B := by
  funext i j
  have hi : i = 0 := Subsingleton.elim i 0
  have hj : j = 0 := Subsingleton.elim j 0
  rw [hi, hj, h]

/-- Concrete eigensolver on 1 by 1 matrices: the dominant eigenvalue
magnitude of [[a]] is |a|. -/
def exMaxEval : Mat 1 1 → ℚ := fun A => |A 0 0|

lemma exMaxEval_single (a : ℚ) : exMaxEval !![a] = |a| := by
  show |(!![a] : Mat 1 1) 0 0| = |a|
  have h : (!![a] : Mat 1 1) 0 0 = a := by simp
  rw [h]

/-- Concrete trajectory for the C5 instance: x(0) = 1, x(1) = 1, x(2) = 2. -/
def ex5x : ℕ → Vec 1 := fun t _ => if t = 0 then 1 else if t = 1 then 1 else 2

/-- Claim C5 counterexample: rho = 1, eta = 1, one epoch over the two steps
t = 0, 1 of the trajectory (1, 1, 2), starting matrix [[10]].  The code
renormalizes inside the time loop: 10 - 1 = 9, rescaled to 1; 1 - 2 = -1,
rescaled to -1.  Renormalizing once per epoch as the claim states gives
10 - 1 = 9, 9 - 2 = 7, rescaled to 1.  The two results differ. -/
theorem C5_counterexample :
    hebb_learn_vector !![(10 : ℚ)] ex5x 1 1 1 0 3 exMaxEval 2 = !![(-1 : ℚ)] ∧
      spec_hebb_learn_vector !![(10 : ℚ)] ex5x 1 1 1 0 3 exMaxEval 2 = !![(1 : ℚ)] ∧
      (!![(-1 : ℚ)] : Mat 1 1) ≠ !![(1 : ℚ)] := by
  have hr : List.range' 0 (3 - 1 - 0) = [0, 1] := by decide
  have hs1 : !![(10 : ℚ)] - (1 : ℚ) • outer (ex5x (0 + 1)) (ex5x 0) = !![(9 : ℚ)] := by
    apply mat1_ext
    show (10 : ℚ) - 1 * (ex5x 1 0 * ex5x 0 0) = (9 : ℚ)
    norm_num [ex5x]
  have hs2 : !![(1 : ℚ)] - (1 : ℚ) • outer (ex5x (1 + 1)) (ex5x 1) = !![(-1 : ℚ)] := by
    apply mat1_ext
    show (1 : ℚ) - 1 * (ex5x 2 0 * ex5x 1 0) = (-1 : ℚ)
    norm_num [ex5x]
  have hs2' : !![(9 : ℚ)] - (1 : ℚ) • outer (ex5x (1 + 1)) (ex5x 1) = !![(7 : ℚ)] := by
    apply mat1_ext
    show (9 : ℚ) - 1 * (ex5x 2 0 * ex5x 1 0) = (7 : ℚ)
    norm_num [ex5x]
  have step1 : hlvStep 1 1 ex5x exMaxEval 2 !![(10 : ℚ)] 0 = !![(1 : ℚ)] := by
    rw [hlvStep_two]
    simp only [hlvStepRenorm]
    rw [hs1, exMaxEval_single, abs_of_pos (by norm_num : (0 : ℚ) < 9)]
    apply mat1_ext
    show 1 / (9 : ℚ) * 9 = (1 : ℚ)
    norm_num
  have step2 : hlvStep 1 1 ex5x exMaxEval 2 !![(1 : ℚ)] 1 = !![(-1 : ℚ)] := by
    rw [hlvStep_two]
    simp only [hlvStepRenorm]
    rw [hs2, exMaxEval_single, abs_of_neg (by norm_num : (-1 : ℚ) < 0)]
    apply mat1_ext
    show 1 / (1 : ℚ) * (-1) = (-1 : ℚ)
    norm_num
  have p1 : hebbStep 1 ex5x !![(10 : ℚ)] 0 = !![(9 : ℚ)] := by
    simp only [hebbStep]
    exact hs1
  have p2 : hebbStep 1 ex5x !![(9 : ℚ)] 1 = !![(7 : ℚ)] := by
    simp only [hebbStep]
    exact hs2'
  refine ⟨?_, ?_, ?_⟩
  · simp only [hebb_learn_vector, hlvEpoch, Function.iterate_one, hr,
      List.foldl_cons, List.foldl_nil, step1, step2]
    rw [if_neg (by omega : ¬ (2 : ℕ) = 1)]
  · simp only [spec_hebb_learn_vector, hebbEpoch, Function.iterate_one, hr,
      List.foldl_cons, List.foldl_nil, p1, p2]
    rw [if_neg (by omega : ¬ (2 : ℕ) = 1), if_true, exMaxEval_single,
      abs_of_pos (by norm_num : (0 : ℚ) < 7)]
    apply mat1_ext
    show 1 / (7 : ℚ) * 7 = (1 : ℚ)
    norm_num
  · intro h
    have h00 : (!![(-1 : ℚ)] : Mat 1 1) 0 0 = (!![(1 : ℚ)] : Mat 1 1) 0 0 := by
      rw [h]
    simp at h00
    norm_num at h00

lemma hebbStep_zero {n : ℕ} (x : ℕ → Vec n) (M : Mat n n) (t : ℕ) :
    hebbStep 0 x M t = M := by
  rw [hebbStep, zero_smul, sub_zero]

lemma hebbEpoch_zero {n : ℕ} (x : ℕ → Vec n) (t_listen T : ℕ) (M : Mat n n) :
    hebbEpoch 0 x t_listen T M = M := by
  rw [hebbEpoch]
  generalize List.range' t_listen (T - 1 - t_listen) = L
  induction L generalizing M with
  | nil => rfl
  | cons t L ih =>
      rw [List.foldl_cons, hebbStep_zero]
      exact ih M

lemma hebb_learn_vector_scale0_eta0 {n : ℕ} (M : Mat n n) (x : ℕ → Vec n)
    (rho : ℚ) (epochs t_listen T : ℕ) (max_eval : Mat n n → ℚ) :
    hebb_learn_vector M x 0 rho epochs t_listen T max_eval 0 = M := by
  have h0 : hlvEpoch 0 rho x max_eval 0 t_listen T = hebbEpoch 0 x t_listen T := by
    funext M0
    simp only [hlvEpoch, hebbEpoch, hlvStep_ne_two 0 rho x max_eval 0 (by omega)]
  simp only [hebb_learn_vector, h0]
  rw [if_neg (by omega : ¬ (0 : ℕ) = 1),
    Function.iterate_fixed (hebbEpoch_zero x t_listen T M) epochs]

/-- Claim C7 (amended): with eta = 0 the decay updates vanish, so
hebb_learn always stores rho * M_orig, and hebb_learn_vector with
scale_M = 0 stores rho * M_orig when reset_M is true (the default reset of
lines 212-213 overwrites the reservoir matrix with rho * M_orig before the
working copy is taken) and leaves the reservoir matrix exactly unchanged
when reset_M is false; hence under the default flags the reservoir matrix
is unchanged exactly when it already equals rho * M_orig (scale modes 1
and 2 additionally rescale by rho / max_eval). -/
theorem C7_eta_zero_semantics {n : ℕ} (M_orig M_state : Mat n n)
    (x : ℕ → Vec n) (rho : ℚ) (epochs t_listen T : ℕ)
    (max_eval : Mat n n → ℚ) :
    hebb_learn M_orig x 0 rho epochs t_listen T = rho • M_orig ∧
      hebb_learn_vector_method M_state M_orig true x 0 rho epochs t_listen T
        max_eval 0 = rho • M_orig ∧
      hebb_learn_vector_method M_state M_orig false x 0 rho epochs t_listen T
        max_eval 0 = M_state ∧
      (M_state = rho • M_orig →
        hebb_learn_vector_method M_state M_orig true x 0 rho epochs t_listen T
          max_eval 0 = M_state) := by
  refine ⟨?_, ?_, ?_, ?_⟩
  · rw [hebb_learn,
      Function.iterate_fixed (hebbEpoch_zero x t_listen T M_orig) epochs]
  · show hebb_learn_vector (set_rho rho M_orig) x 0 rho epochs t_listen T
        max_eval 0 = rho • M_orig
    rw [hebb_learn_vector_scale0_eta0]
    rfl
  · show hebb_learn_vector M_state x 0 rho epochs t_listen T max_eval 0 = M_state
    exact hebb_learn_vector_scale0_eta0 M_state x rho epochs t_listen T max_eval
  · intro h
    show hebb_learn_vector (set_rho rho M_orig) x 0 rho epochs t_listen T
        max_eval 0 = M_state
    rw [hebb_learn_vector_scale0_eta0, h]
    rfl

/-- Claim C7 counterexample: a model state whose reservoir matrix is [[5]]
while rho * M_orig = [[1]] (rho = 1, M_orig = [[1]]).  With eta = 0,
hebb_learn stores rho * M_orig = [[1]], changing the reservoir matrix;
hebb_learn_vector on the same state with the default reset_M = True and
scale_M = 0 also stores rho * M_orig = [[1]]; and with reset_M = False and
scale_M = 1 it stores (rho / max_eval(M)) * M = [[1]].  In each case the
reservoir matrix changes although eta = 0. -/
theorem C7_counterexample :
    hebb_learn !![(1 : ℚ)] exTraj 0 1 1 0 2 = !![(1 : ℚ)] ∧
      (!![(1 : ℚ)] : Mat 1 1) ≠ !![(5 : ℚ)] ∧
      hebb_learn_vector_method !![(5 : ℚ)] !![(1 : ℚ)] true exTraj 0 1 1 0 2
        exMaxEval 0 = !![(1 : ℚ)] ∧
      hebb_learn_vector_method !![(5 : ℚ)] !![(1 : ℚ)] false exTraj 0 1 1 0 2
        exMaxEval 1 = !![(1 : ℚ)] := by
  refine ⟨?_, ?_, ?_, ?_⟩
  · rw [hebb_learn, Function.iterate_fixed (hebbEpoch_zero exTraj 0 2 !![(1 : ℚ)]) 1,
      one_smul]
  · intro h
    have h00 : (!![(1 : ℚ)] : Mat 1 1) 0 0 = (!![(5 : ℚ)] : Mat 1 1) 0 0 := by
      rw [h]
    simp at h00
  · show hebb_learn_vector (set_rho 1 !![(1 : ℚ)]) exTraj 0 1 1 0 2
        exMaxEval 0 = !![(1 : ℚ)]
    rw [hebb_learn_vector_scale0_eta0, set_rho, one_smul]
  · show hebb_learn_vector !![(5 : ℚ)] exTraj 0 1 1 0 2 exMaxEval 1 = !![(1 : ℚ)]
    have h0 : hlvEpoch 0 1 exTraj exMaxEval 1 0 2 !![(5 : ℚ)] = !![(5 : ℚ)] := by
      rw [hlvEpoch, hlvStep_ne_two 0 1 exTraj exMaxEval 1 (by omega)]
      exact hebbEpoch_zero exTraj 0 2 !![(5 : ℚ)]
    simp only [hebb_learn_vector, Function.iterate_one, h0]
    rw [if_true, exMaxEval_single, abs_of_pos (by norm_num : (0 : ℚ) < 5)]
    apply mat1_ext
    show 1 / (5 : ℚ) * 5 = (1 : ℚ)
    norm_num

/-- Claim C7 witness: the amended theorem instantiated at M_orig = [[2]],
rho = 3, a model state [[6]] that already equals rho * M_orig, one epoch:
the default-reset call with eta = 0 and scale_M = 0 leaves the reservoir
matrix [[6]] unchanged. -/
theorem C7_witness :
    hebb_learn_vector_method !![(6 : ℚ)] !![(2 : ℚ)] true exTraj 0 3 1 0 2
      exMaxEval 0 = !![(6 : ℚ)] :=
  (C7_eta_zero_semantics !![(2 : ℚ)] !![(6 : ℚ)] exTraj 3 1 0 2 exMaxEval).2.2.2
    (mat1_ext (by
      show (6 : ℚ) = 3 * 2
      norm_num))

/-- The column norms of a matrix as computed by np.linalg.norm(M, axis=0):
entry j is the norm of column j; the external norm routine is the abstract
parameter normFn (contract: normFn(v) is the Euclidean norm of v). -/
def colNorms {n : ℕ} (normFn : Vec n → ℚ) (M : Mat n n) : Vec n :=
  fun j => normFn (fun i => M i j)

/-- One step of AHESN.norm_hebb_learn (ResCom.py lines 244-245):
M_hat = M - eta * outer(x[t+1], x[t]) followed by
M = np.diag(1 / np.linalg.norm(M_hat, axis=0)) @ M_hat. -/
def normHebbStep {n : ℕ} (eta : ℚ) (x : ℕ → Vec n) (normFn : Vec n → ℚ)
    (M : Mat n n) (t : ℕ) : Mat n n :=
  let M_hat := M - eta • outer (x (t + 1)) (x t)
  Matrix.diagonal (fun i => 1 / colNorms normFn M_hat i) * M_hat

/-- One epoch of AHESN.norm_hebb_learn: the step for t in
range(t_listen, T - 1) with T = data.shape[0]. -/
def normHebbEpoch {n : ℕ} (eta : ℚ) (x : ℕ → Vec n) (normFn : Vec n → ℚ)
    (t_listen T : ℕ) (M : Mat n n) : Mat n n :=
  (List.range' t_listen (T - 1 - t_listen)).foldl (normHebbStep eta x normFn) M

/-- AHESN.norm_hebb_learn (ResCom.py lines 235-248): starting from
M = self.M_orig.copy(), the epoch loop runs self.epochs times and the
result is stored as self.M = self.rho * sp.csr_matrix(M). -/
def norm_hebb_learn {n : ℕ} (M_orig : Mat n n) (x : ℕ → Vec n) (eta rho : ℚ)
    (epochs t_listen T : ℕ) (normFn : Vec n → ℚ) : Mat n n :=
  rho • (normHebbEpoch eta x normFn t_listen T)^[epochs] M_orig

/-- Follows the spec's words for the per-step normalization of
norm_hebb_learn: after each single-step update the matrix is rescaled
column-wise by the inverse of each column's current norm, i.e. column j is
divided by its own norm. -/
def specNormHebbStep {n : ℕ} (eta : ℚ) (x : ℕ → Vec n) (normFn : Vec n → ℚ)
    (M : Mat n n) (t : ℕ) : Mat n n :=
  let M_hat := M - eta • outer (x (t + 1)) (x t)
  M_hat * Matrix.diagonal (fun j => 1 / colNorms normFn M_hat j)

/-- Claim C6 (amended): after each single-step decay update the working
matrix is left-multiplied by the diagonal of inverse column norms, so entry
(i, j) is divided by the norm of column i — a row-wise rescale by the
column norms, not a column-wise rescale — and the matrix stored when the
procedure completes is rho times the working matrix, with no final
renormalization to spectral radius rho (with zero epochs the stored matrix
is exactly rho * M_orig). -/
theorem C6_norm_hebb_semantics {n : ℕ} (eta rho : ℚ) (x : ℕ → Vec n)
    (normFn : Vec n → ℚ) (M M_orig : Mat n n) (t t_listen T : ℕ) :
    (∀ i j, normHebbStep eta x normFn M t i j =
        1 / normFn (fun k => (M - eta • outer (x (t + 1)) (x t)) k i) *
          (M - eta • outer (x (t + 1)) (x t)) i j) ∧
      norm_hebb_learn M_orig x eta rho 0 t_listen T normFn = rho • M_orig := by
  constructor
  · intro i j
    simp only [normHebbStep, colNorms]
    rw [Matrix.diagonal_mul]
  · rw [norm_hebb_learn, Function.iterate_zero_apply]

/-- The zero trajectory used in the C6 instance. -/
def ex0traj : ℕ → Vec 2 := fun _ _ => 0

/-- Concrete norm routine for the C6 instance: it returns the exact
Euclidean norms 5 and 10 on the two columns that occur, (3, 4) and
(8, 6). -/
def exNorm : Vec 2 → ℚ := fun v => if v 0 = 3 then 5 else 10

/-- Claim C6 counterexample: M_orig = [[3, 8], [4, 6]], zero trajectory (so
M_hat = M_orig), rho = 1, one epoch with one step.  The columns (3, 4) and
(8, 6) have exact norms 5 and 10, reported by exNorm.  The code divides row
i by the norm of column i, storing [[3/5, 8/5], [2/5, 3/5]]: entry (0, 1)
is 8/5 where the claimed column-wise rescale would give 8/10 = 4/5, and the
stored matrix has eigenvalue 7/5 with eigenvector (2, 1), so its spectral
radius is not rho = 1. -/
theorem C6_counterexample :
    (exNorm (fun k => (!![(3 : ℚ), 8; 4, 6]) k 0) = 5 ∧
      exNorm (fun k => (!![(3 : ℚ), 8; 4, 6]) k 1) = 10 ∧
      (5 : ℚ) ^ 2 = 3 ^ 2 + 4 ^ 2 ∧ (10 : ℚ) ^ 2 = 8 ^ 2 + 6 ^ 2) ∧
    norm_hebb_learn !![(3 : ℚ), 8; 4, 6] ex0traj 1 1 1 0 2 exNorm =
        !![(3/5 : ℚ), 8/5; 2/5, 3/5] ∧
    normHebbStep 1 ex0traj exNorm !![(3 : ℚ), 8; 4, 6] 0 0 1 = 8/5 ∧
    specNormHebbStep 1 ex0traj exNorm !![(3 : ℚ), 8; 4, 6] 0 0 1 = 4/5 ∧
    (8/5 : ℚ) ≠ 4/5 ∧
    EigenPair !![(3/5 : ℚ), 8/5; 2/5, 3/5] (7/5) ![2, 1] ∧
    ¬ IsSpectralRadius !![(3/5 : ℚ), 8/5; 2/5, 3/5] 1 := by
  have f1 : !![(3 : ℚ), 8; 4, 6] - (1 : ℚ) • outer (ex0traj (0 + 1)) (ex0traj 0) =
      !![(3 : ℚ), 8; 4, 6] := by
    funext i j
    simp [outer, ex0traj, Matrix.sub_apply, Matrix.smul_apply]
  have f3 : normHebbStep 1 ex0traj exNorm !![(3 : ℚ), 8; 4, 6] 0 =
      !![(3/5 : ℚ), 8/5; 2/5, 3/5] := by
    simp only [normHebbStep]
    rw [f1]
    funext i j
    rw [Matrix.diagonal_mul]
    fin_cases i <;> fin_cases j <;> norm_num [colNorms, exNorm]
  have hpair : EigenPair !![(3/5 : ℚ), 8/5; 2/5, 3/5] (7/5) ![2, 1] := by
    constructor
    · intro h
      have h0 := congrFun h 0
      norm_num at h0
    · funext i
      fin_cases i <;>
        norm_num [Matrix.mulVec, Matrix.dotProduct, Fin.sum_univ_two,
          Pi.smul_apply, smul_eq_mul]
  refine ⟨⟨by norm_num [exNorm], by norm_num [exNorm], by norm_num, by norm_num⟩,
    ?_, ?_, ?_, by norm_num, hpair, ?_⟩
  · have hr2 : List.range' 0 (2 - 1 - 0) = [0] := by decide
    simp only [norm_hebb_learn, normHebbEpoch, Function.iterate_one, hr2,
      List.foldl_cons, List.foldl_nil, f3, one_smul]
  · rw [f3]
    norm_num
  · simp only [specNormHebbStep]
    rw [f1, Matrix.mul_diagonal]
    norm_num [colNorms, exNorm]
  · rintro ⟨hb, -⟩
    have h := hb (7/5) ![2, 1] hpair
    rw [abs_of_pos (by norm_num : (0 : ℚ) < 7/5)] at h
    linarith

/-- IPESN.H (ResCom.py lines 272-273):
H(x) = -mu/sd**2 + (x/sd**2)*(2*sd**2 + 1 - x**2 + mu*x). -/
def H (mu sd x : ℚ) : ℚ :=
  -mu / sd ^ 2 + x / sd ^ 2 * (2 * sd ^ 2 + 1 - x ^ 2 + mu * x)

/-- The pre-activation samples of IP_train (ResCom.py line 282):
z[t] = M.dot(x[t]) + W_in.dot(u(t_points[t])), with the interpolant values
at the grid points abstracted as the sequence u. -/
def zSamples {n d : ℕ} (M : Mat n n) (W_in : Mat n d) (u : ℕ → Fin d → ℚ)
    (x : ℕ → Vec n) : ℕ → Vec n :=
  fun t => M.mulVec (x t) + W_in.mulVec (u t)

/-- One inner step of IP_train (ResCom.py lines 285-289): for time index t,
delta_b = -nu * H(x[t]) elementwise, delta_a = nu / a + delta_b * z[t]
elementwise (computed with the old a), then b += delta_b and a += delta_a. -/
def ipStep {n : ℕ} (nu mu sd : ℚ) (x z : ℕ → Vec n) (ab : Vec n × Vec n)
    (t : ℕ) : Vec n × Vec n :=
  let a := ab.1
  let b := ab.2
  let delta_b : Vec n := fun i => -nu * H mu sd (x t i)
  let delta_a : Vec n := fun i => nu / a i + delta_b i * z t i
  (a + delta_a, b + delta_b)

/-- The gain/bias loop of IPESN.IP_train (ResCom.py lines 284-289): for e in
range(epochs): for t in range(len(t_points)): the step above; Tlen is
len(t_points) and z holds the precomputed pre-activation samples. -/
def IP_train_ab {n : ℕ} (nu mu sd : ℚ) (x z : ℕ → Vec n) (Tlen epochs : ℕ)
    (a b : Vec n) : Vec n × Vec n :=
  (fun ab => (List.range Tlen).foldl (ipStep nu mu sd x z) ab)^[epochs] (a, b)

/-- Claim C8 (confirmed): with nu = 0 every inner step adds the zero vector
to both the gain a and the bias b (the hypothesis that the gains are
nonzero keeps the elementwise quotient nu / a meaningful, matching the
exact-arithmetic reading of the float expression), so IP_train leaves a and
b unchanged for any number of epochs, any trajectory, any pre-activation
samples and any target moments. -/
theorem C8_IP_train_nu_zero {n : ℕ} (mu sd : ℚ) (x z : ℕ → Vec n)
    (Tlen epochs : ℕ) (a b : Vec n) (_ha : ∀ i, a i ≠ 0) :
    IP_train_ab 0 mu sd x z Tlen epochs a b = (a, b) := by
  have hstep : ∀ (ab : Vec n × Vec n) (t : ℕ), ipStep 0 mu sd x z ab t = ab := by
    intro ab t
    simp only [ipStep, neg_zero, zero_mul, zero_div, zero_add, add_zero]
    have hz : (fun _ : Fin n => (0 : ℚ)) = 0 := rfl
    rw [hz, add_zero, add_zero]
  have hfold : ∀ (L : List ℕ) (ab : Vec n × Vec n),
      L.foldl (ipStep 0 mu sd x z) ab = ab := by
    intro L
    induction L with
    | nil => intro ab; rfl
    | cons t L ih =>
        intro ab
        rw [List.foldl_cons, hstep ab t]
        exact ih ab
  rw [IP_train_ab]
  exact Function.iterate_fixed (hfold (List.range Tlen) (a, b)) epochs

/-- Claim C8 witness: nu = 0, mu = sd = 1, zero trajectory and samples,
two grid points and two epochs, gains all one and biases all zero: IP_train
returns the gains and biases unchanged. -/
theorem C8_witness :
    IP_train_ab (n := 1) 0 1 1 (fun _ _ => 0) (fun _ _ => 0) 2 2
        (fun _ => 1) (fun _ => 0) = ((fun _ => 1), (fun _ => 0)) :=
  C8_IP_train_nu_zero 1 1 (fun _ _ => 0) (fun _ _ => 0) 2 2
    (fun _ => 1) (fun _ => 0) (fun _ => by norm_num)

end ResCom
